import Mathlib

/-!
# Verification of the channeldb revocation-log subsystem

Shallow embedding of `channeldb`'s revocation-log code (sparse payment-hash
codec, HTLC-entry and revocation-log TLV codecs, dual-bucket compatible fetch,
put with output-index bounds checks, and log-bucket deletion), together with
theorems settling the spec's claims about it.

Byte streams are modelled as `List Nat` (each element a byte value). The
`tlv` package primitives (`WriteVarInt`/`ReadVarInt`, the stream
encoder/decoder, and the per-field encoders/decoders), the kvdb bucket
interface, the storage-key derivation and the legacy commitment decoder are
not part of the examined source file; they are modelled from the spec
(big-endian fixed-width integers, BigSize-style variable-length integers,
tag/length/value field lists, and a nested key-value namespace model).
-/
namespace RevLog

/-- The error values surfaced by this subsystem. `eof` models `io.EOF`,
`unexpectedEof` models `io.ErrUnexpectedEOF` (the truncated-record error),
`invalidFieldLength` models a fixed-size field whose declared length is not
one of its legal values, and the remaining constructors model the named
sentinel errors of the source (`ErrLogEntryNotFound`, `ErrNoPastDeltas`,
`ErrOutputIndexTooBig`). -/
inductive DBError where
  | eof
  | unexpectedEof
  | invalidFieldLength
  | logEntryNotFound
  | noPastDeltas
  | outputIndexTooBig
  deriving DecidableEq, Repr

/-- Modelled from the spec: fixed-width big-endian byte encoding of an
unsigned integer (spec section 4.6 and the u16/u32 fields of section 6);
`beBytes w n` is the low `w` bytes of `n`, most significant first. -/
def beBytes : Nat → Nat → List Nat
  | 0, _ => []
  | w + 1, n => (n / 256 ^ w) % 256 :: beBytes w n

/-- Modelled from the spec: big-endian decoding of a byte list. -/
def beDecode : List Nat → Nat
  | [] => 0
  | b :: bs => b * 256 ^ bs.length + beDecode bs

/-- Modelled from the spec: the compact variable-length unsigned integer
encoding used for framing lengths, field tags and lengths, balances and
amounts (`tlv.WriteVarInt` / the BigSize encoding; spec sections 4.1 and 6):
one byte below 0xfd, otherwise a discriminator byte followed by a 2-, 4- or
8-byte big-endian value. -/
def writeVarInt (n : Nat) : List Nat :=
  if n < 0xfd then [n]
  else if n < 0x10000 then 0xfd :: beBytes 2 n
  else if n < 0x100000000 then 0xfe :: beBytes 4 n
  else 0xff :: beBytes 8 n

/-- Width of the multi-byte value that follows a varint discriminator byte. -/
def varIntWidth (b : Nat) : Nat :=
  if b = 0xfd then 2 else if b = 0xfe then 4 else 8

/-- Modelled from the spec: reading a variable-length integer
(`tlv.ReadVarInt`). An empty input at the very start is the distinguished
end-of-stream signal `eof`; an input that ends inside the multi-byte value is
the truncated-record error `unexpectedEof`. -/
def readVarInt : List Nat → Except DBError (Nat × List Nat)
  | [] => .error .eof
  | b :: bs =>
    if b < 0xfd then .ok (b, bs)
    else if varIntWidth b ≤ bs.length then
      .ok (beDecode (bs.take (varIntWidth b)), bs.drop (varIntWidth b))
    else .error .unexpectedEof

/-- Modelled from the spec: the typed-field-list parse performed by
`tlv.Stream.DecodeWithParsedTypes` (spec sections 4.3 and 6). Each field is
`tag (varint) ++ length (varint) ++ value`; the fields of a stream are parsed
into a list of `(tag, value-bytes)` pairs in stream order. An end-of-stream at
a tag boundary ends the field list; a field whose declared length exceeds the
remaining bytes is the truncated-record error. Tags are not required to be in
any particular order, and unknown tags are kept here and skipped by the
projection functions below. -/
def parseFields (bs : List Nat) : Except DBError (List (Nat × List Nat)) :=
  match hv : readVarInt bs with
  | .error .eof => .ok []
  | .error _ => .error .unexpectedEof
  | .ok (tag, bs1) =>
    match hv2 : readVarInt bs1 with
    | .error _ => .error .unexpectedEof
    | .ok (len, bs2) =>
      if len ≤ bs2.length then
        match parseFields (bs2.drop len) with
        | .ok fs => .ok ((tag, bs2.take len) :: fs)
        | .error e => .error e
      else .error .unexpectedEof
termination_by bs.length
decreasing_by
  have key : ∀ (xs : List Nat) (n : Nat) (rest : List Nat),
      readVarInt xs = .ok (n, rest) → rest.length < xs.length := by
    intro xs n rest hx
    cases xs with
    | nil => simp [readVarInt] at hx
    | cons b bs0 =>
      simp only [readVarInt] at hx
      split at hx
      · simp only [Except.ok.injEq, Prod.mk.injEq] at hx
        obtain ⟨-, h2⟩ := hx
        subst h2
        simp
      · split at hx
        · simp only [Except.ok.injEq, Prod.mk.injEq] at hx
          obtain ⟨-, h2⟩ := hx
          subst h2
          simp only [List.length_cons, List.length_drop]
          omega
        · simp at hx
  have h1 := key _ _ _ hv
  have h2 := key _ _ _ hv2
  simp only [List.length_drop]
  omega

/-- Field encoding: `tag ++ length ++ value`, fields back to back (the encode
side of the typed field list; modelled from the spec, sections 4.3 and 6). -/
def encodeFields : List (Nat × List Nat) → List Nat
  | [] => []
  | (t, v) :: fs => writeVarInt t ++ (writeVarInt v.length ++ (v ++ encodeFields fs))

/-- `writeTlvStream` from the source: frame an encoded field list with its
byte length as a varint. -/
def writeTlvStream (body : List Nat) : List Nat :=
  writeVarInt body.length ++ body

/-- `readTlvStream` from the source: read the stream length varint (an
`io.EOF` there is converted to `io.ErrUnexpectedEOF`), then decode the fields
of exactly that many bytes; fewer available bytes than the declared length is
the truncated-record error (the exact-length read is modelled from the spec's
`readFramed` contract, section 4.1). Returns the parsed fields and the
remainder of the outer stream. -/
def readTlvStream (bs : List Nat) :
    Except DBError (List (Nat × List Nat) × List Nat) :=
  match readVarInt bs with
  | .error .eof => .error .unexpectedEof
  | .error e => .error e
  | .ok (bodyLen, rest) =>
    if bodyLen ≤ rest.length then
      match parseFields (rest.take bodyLen) with
      | .ok fields => .ok (fields, rest.drop bodyLen)
      | .error e => .error e
    else .error .unexpectedEof

/-! ## Field-level decoders

Modelled from the spec (`tlv.DUint16`, `tlv.DUint32`, `tlv.DBytes32`,
`tlv.DBool` and the BigSize record decoder): a fixed-size field demands
exactly its size, any other declared length is the invalid-field-length
error. -/
/-- The all-zero 32-byte value (`lntypes.ZeroHash`). -/
def zeroHash : List Nat := List.replicate 32 0

/-- Modelled from the spec: decode a fixed 2-byte big-endian field. -/
def decodeU16 (vb : List Nat) : Except DBError Nat :=
  if vb.length = 2 then .ok (beDecode vb) else .error .invalidFieldLength

/-- Modelled from the spec: decode a fixed 4-byte big-endian field. -/
def decodeU32 (vb : List Nat) : Except DBError Nat :=
  if vb.length = 4 then .ok (beDecode vb) else .error .invalidFieldLength

/-- Modelled from the spec: decode a fixed 32-byte field. -/
def decodeBytes32 (vb : List Nat) : Except DBError (List Nat) :=
  if vb.length = 32 then .ok vb else .error .invalidFieldLength

/-- Modelled from the spec: decode a one-byte boolean field. -/
def decodeBool (vb : List Nat) : Except DBError Bool :=
  if vb = [0] then .ok false
  else if vb = [1] then .ok true
  else .error .invalidFieldLength

/-- Modelled from the spec: decode a BigSize varint field; the varint must
fill the field exactly. -/
def decodeBigSizeField (vb : List Nat) : Except DBError Nat :=
  match readVarInt vb with
  | .ok (n, []) => .ok n
  | .ok (_, _ :: _) => .error .invalidFieldLength
  | .error _ => .error .unexpectedEof

/-- `SparsePayHash.hashLen` from the source: declared length of the sparse
hash encoding, 0 for the all-zero hash, 32 otherwise. -/
def hashLen (h : List Nat) : Nat :=
  if h = zeroHash then 0 else 32

/-- `sparseHashEncoder` from the source: the all-zero hash encodes to no
bytes at all, any other hash to its 32 bytes verbatim. -/
def sparseHashEncoder (h : List Nat) : List Nat :=
  if h = zeroHash then [] else h

/-- `sparseHashDecoder` from the source: a zero-length field decodes to the
all-zero hash; otherwise exactly 32 bytes are demanded (the fixed-size read is
`tlv.DBytes32`, modelled from the spec: any other declared length is the
invalid-field-length error). -/
def sparseHashDecoder (vb : List Nat) : Except DBError (List Nat) :=
  if vb.length = 0 then .ok zeroHash
  else if vb.length = 32 then .ok vb
  else .error .invalidFieldLength

/-! ## Data model -/
/-- `HTLCEntry` from the source: the minimal per-HTLC info persisted in a
revocation log. `rHash` is a 32-byte list, `refundTimeout` a `uint32`,
`outputIndex` a `uint16`, `amt` a satoshi amount carried as a BigSize
(`uint64`). -/
structure HTLCEntry where
  rHash : List Nat
  refundTimeout : Nat
  outputIndex : Nat
  incoming : Bool
  amt : Nat
  deriving DecidableEq, Repr

/-- Well-formedness of an `HTLCEntry` as the Go value ranges dictate. -/
def HTLCEntry.WF (h : HTLCEntry) : Prop :=
  h.rHash.length = 32 ∧ h.refundTimeout < 2 ^ 32 ∧
    h.outputIndex < 2 ^ 16 ∧ h.amt < 2 ^ 64

instance (h : HTLCEntry) : Decidable h.WF := by
  unfold HTLCEntry.WF; infer_instance

/-- `RevocationLog` from the source: two `uint16` output indices, the 32-byte
commitment transaction hash, the HTLC entry list, and the two optional
balances (`nil` pointers modelled as `none`). -/
structure RevocationLog where
  ourOutputIndex : Nat
  theirOutputIndex : Nat
  commitTxHash : List Nat
  htlcEntries : List HTLCEntry
  ourBalance : Option Nat
  theirBalance : Option Nat
  deriving DecidableEq, Repr

/-- Well-formedness of a `RevocationLog` as the Go value ranges dictate. -/
def RevocationLog.WF (rl : RevocationLog) : Prop :=
  rl.ourOutputIndex < 2 ^ 16 ∧ rl.theirOutputIndex < 2 ^ 16 ∧
    rl.commitTxHash.length = 32 ∧ (∀ h ∈ rl.htlcEntries, h.WF) ∧
    rl.ourBalance.getD 0 < 2 ^ 64 ∧ rl.theirBalance.getD 0 < 2 ^ 64

instance (rl : RevocationLog) : Decidable rl.WF := by
  unfold RevocationLog.WF; infer_instance

/-! ## Serialization (from the source) -/
/-- The typed fields of one HTLC entry, in the order `HTLCEntry.toTlvStream`
lists them: hash = 0, refund timeout = 1, output index = 2, incoming = 3,
amount = 4. -/
def htlcFields (h : HTLCEntry) : List (Nat × List Nat) :=
  [(0, sparseHashEncoder h.rHash),
   (1, beBytes 4 h.refundTimeout),
   (2, beBytes 2 h.outputIndex),
   (3, [if h.incoming then 1 else 0]),
   (4, writeVarInt h.amt)]

/-- `serializeHTLCEntries` from the source: each entry's field list is
length-framed on its own, entries back to back. -/
def serializeHTLCEntries : List HTLCEntry → List Nat
  | [] => []
  | h :: hs => writeTlvStream (encodeFields (htlcFields h)) ++ serializeHTLCEntries hs

/-- The typed fields of the revocation-log header, in the order
`serializeRevocationLog` lists them: our output index = 0, their output
index = 1, commit tx hash = 2, then each balance only when present. -/
def revLogFields (rl : RevocationLog) : List (Nat × List Nat) :=
  [(0, beBytes 2 rl.ourOutputIndex),
   (1, beBytes 2 rl.theirOutputIndex),
   (2, rl.commitTxHash)]
  ++ (match rl.ourBalance with
      | some b => [(3, writeVarInt b)]
      | none => [])
  ++ (match rl.theirBalance with
      | some b => [(4, writeVarInt b)]
      | none => [])

/-- `serializeRevocationLog` from the source: the length-framed header field
list followed by the HTLC entry records. -/
def serializeRevocationLog (rl : RevocationLog) : List Nat :=
  writeTlvStream (encodeFields (revLogFields rl)) ++
    serializeHTLCEntries rl.htlcEntries

/-! ## Deserialization (from the source) -/
/-- Project one tag out of a parsed field list: a missing tag yields the
Go zero value of the destination, a present tag is decoded by the field's
decoder (first occurrence of a tag wins); tags not projected by any caller
are thereby ignored. -/
def decodeFieldD {α : Type} (default : α) (dec : List Nat → Except DBError α)
    (fields : List (Nat × List Nat)) (tag : Nat) : Except DBError α :=
  match fields.lookup tag with
  | none => .ok default
  | some vb => dec vb

/-- Projection of one parsed field list onto an `HTLCEntry`: each known tag
is decoded by its field decoder, a missing tag leaves the Go zero value,
unknown tags are ignored. -/
def decodeHTLCFields (fields : List (Nat × List Nat)) :
    Except DBError HTLCEntry := do
  let rHash ← decodeFieldD zeroHash sparseHashDecoder fields 0
  let timeout ← decodeFieldD 0 decodeU32 fields 1
  let outputIndex ← decodeFieldD 0 decodeU16 fields 2
  let incoming ← decodeFieldD false decodeBool fields 3
  let amt ← decodeFieldD 0 decodeBigSizeField fields 4
  pure ⟨rHash, timeout, outputIndex, incoming, amt⟩

/-- Decode a present balance field: a BigSize value, wrapped in `some` to
record that its tag was observed. -/
def decodeBalance (vb : List Nat) : Except DBError (Option Nat) :=
  (decodeBigSizeField vb).map some

/-- Projection of the parsed header field list onto a `RevocationLog` (no
HTLC entries yet). A balance is present exactly when its tag was observed
among the parsed fields, as in `deserializeRevocationLog`'s use of the
parsed-types map. -/
def decodeRevLogHeader (fields : List (Nat × List Nat)) :
    Except DBError RevocationLog := do
  let our ← decodeFieldD 0 decodeU16 fields 0
  let their ← decodeFieldD 0 decodeU16 fields 1
  let hash ← decodeFieldD zeroHash decodeBytes32 fields 2
  let ourBal ← decodeFieldD none decodeBalance fields 3
  let theirBal ← decodeFieldD none decodeBalance fields 4
  pure ⟨our, their, hash, [], ourBal, theirBal⟩

/-- `deserializeHTLCEntries` from the source: repeatedly read one framed
record and project it onto an `HTLCEntry`; the truncated-record error (which
the source's `readTlvStream` also returns for an end-of-stream at the very
start of the length field) ends the list without error. -/
def deserializeHTLCEntries (bs : List Nat) : Except DBError (List HTLCEntry) :=
  match hv : readTlvStream bs with
  | .error .unexpectedEof => .ok []
  | .error e => .error e
  | .ok (fields, rest) =>
    match decodeHTLCFields fields with
    | .error e => .error e
    | .ok h =>
      match deserializeHTLCEntries rest with
      | .ok hs => .ok (h :: hs)
      | .error e => .error e
termination_by bs.length
decreasing_by
  have key : ∀ (xs : List Nat) (n : Nat) (rest : List Nat),
      readVarInt xs = .ok (n, rest) → rest.length < xs.length := by
    intro xs n rest hx
    cases xs with
    | nil => simp [readVarInt] at hx
    | cons b bs0 =>
      simp only [readVarInt] at hx
      split at hx
      · simp only [Except.ok.injEq, Prod.mk.injEq] at hx
        obtain ⟨-, h2⟩ := hx
        subst h2
        simp
      · split at hx
        · simp only [Except.ok.injEq, Prod.mk.injEq] at hx
          obtain ⟨-, h2⟩ := hx
          subst h2
          simp only [List.length_cons, List.length_drop]
          omega
        · simp at hx
  unfold readTlvStream at hv
  split at hv
  · exact absurd hv (by simp)
  · exact absurd hv (by simp)
  case _ bodyLen rest1 hv2 =>
    split at hv
    · split at hv
      · simp only [Except.ok.injEq, Prod.mk.injEq] at hv
        obtain ⟨-, h2⟩ := hv
        subst h2
        have := key _ _ _ hv2
        simp only [List.length_drop]
        omega
      · exact absurd hv (by simp)
    · exact absurd hv (by simp)

/-- `deserializeRevocationLog` from the source: read the framed header field
list, project it, then read the HTLC entries from the remainder. -/
def deserializeRevocationLog (bs : List Nat) : Except DBError RevocationLog :=
  match readTlvStream bs with
  | .error e => .error e
  | .ok (fields, rest) =>
    match decodeRevLogHeader fields with
    | .error e => .error e
    | .ok hdr =>
      match deserializeHTLCEntries rest with
      | .ok htlcs => .ok { hdr with htlcEntries := htlcs }
      | .error e => .error e

/-! ## Storage model and the bucket-level operations -/
/-- Modelled from the spec (section 6): a kvdb bucket as an association list
from keys to stored byte values; get is first-match lookup and put prepends,
so a later put of the same key shadows the earlier value (upsert). -/
abbrev Bucket := List (List Nat × List Nat)

/-- Modelled from the spec: `bucket.Put`. -/
def bucketPut (b : Bucket) (k v : List Nat) : Bucket := (k, v) :: b

/-- Modelled from the spec (section 4.6): `makeLogKey`, the fixed-width
8-byte big-endian storage key derived from a commitment height. -/
def makeLogKey (height : Nat) : List Nat := beBytes 8 height

/-- `fetchRevocationLog` from the source: look the height key up in the
current-format bucket; a missing key is the log-entry-not-found error,
otherwise the stored bytes are deserialized. -/
def fetchRevocationLog (log : Bucket) (updateNum : Nat) :
    Except DBError RevocationLog :=
  match log.lookup (makeLogKey updateNum) with
  | none => .error .logEntryNotFound
  | some commitBytes => deserializeRevocationLog commitBytes

/-- Modelled from the spec: the `HTLC` domain object as consumed by
`putRevocationLog` (payment hash, absolute refund timeout, signed output
index where negative means dust, direction flag, millisatoshi amount); the
type itself is declared outside the examined file. -/
structure HTLC where
  rHash : List Nat
  refundTimeout : Nat
  outputIndex : Int
  incoming : Bool
  amt : Nat
  deriving DecidableEq, Repr

/-- Well-formedness of an `HTLC` as the Go value ranges dictate. -/
def HTLC.WF (h : HTLC) : Prop :=
  h.rHash.length = 32 ∧ h.refundTimeout < 2 ^ 32 ∧ h.amt < 2 ^ 64

instance (h : HTLC) : Decidable h.WF := by
  unfold HTLC.WF; infer_instance

/-- Modelled from the spec: the `ChannelCommitment` fields that
`putRevocationLog` consumes (the type is declared outside the examined
file); `commitTxHash` stands for the value of `CommitTx.TxHash()`. -/
structure ChannelCommitment where
  commitHeight : Nat
  localBalance : Nat
  remoteBalance : Nat
  commitTxHash : List Nat
  htlcs : List HTLC
  deriving DecidableEq, Repr

/-- Well-formedness of a `ChannelCommitment` as the Go value ranges
dictate. -/
def ChannelCommitment.WF (c : ChannelCommitment) : Prop :=
  c.commitTxHash.length = 32 ∧ c.localBalance < 2 ^ 64 ∧
    c.remoteBalance < 2 ^ 64 ∧ ∀ h ∈ c.htlcs, h.WF

instance (c : ChannelCommitment) : Decidable c.WF := by
  unfold ChannelCommitment.WF; infer_instance

/-- `NewHTLCEntryFromHTLC` from the source: the Go `uint16` conversion of
the signed output index wraps modulo 2 ^ 16 and the millisatoshi amount is
truncated to whole satoshis (`ToSatoshis`). -/
def NewHTLCEntryFromHTLC (htlc : HTLC) : HTLCEntry :=
  { rHash := htlc.rHash
    refundTimeout := htlc.refundTimeout
    outputIndex := (htlc.outputIndex % 65536).toNat
    incoming := htlc.incoming
    amt := htlc.amt / 1000 }

/-- The HTLC loop of `putRevocationLog`: a dust HTLC (negative output index)
is skipped, an output index above the `uint16` range aborts with the
output-index-too-big error, every other HTLC is converted, in order. -/
def buildHTLCEntries : List HTLC → Except DBError (List HTLCEntry)
  | [] => .ok []
  | htlc :: rest =>
    if htlc.outputIndex < 0 then buildHTLCEntries rest
    else if htlc.outputIndex > 65535 then .error .outputIndexTooBig
    else
      match buildHTLCEntries rest with
      | .ok entries => .ok (NewHTLCEntryFromHTLC htlc :: entries)
      | .error e => .error e

/-- `putRevocationLog` from the source: reject either top-level output index
above the `uint16` range, build the HTLC entry list (skipping dust, rejecting
oversized indices), serialize, and store under the height key. The balances
are attached exactly when `noAmtData` is unset. -/
def putRevocationLog (bucket : Bucket) (commit : ChannelCommitment)
    (ourOutputIndex theirOutputIndex : Nat) (noAmtData : Bool) :
    Except DBError Bucket :=
  if ourOutputIndex > 65535 then .error .outputIndexTooBig
  else if theirOutputIndex > 65535 then .error .outputIndexTooBig
  else
    match buildHTLCEntries commit.htlcs with
    | .error e => .error e
    | .ok entries =>
      .ok (bucketPut bucket (makeLogKey commit.commitHeight)
        (serializeRevocationLog
          { ourOutputIndex := ourOutputIndex
            theirOutputIndex := theirOutputIndex
            commitTxHash := commit.commitTxHash
            htlcEntries := entries
            ourBalance := if noAmtData then none else some commit.localBalance
            theirBalance := if noAmtData then none else some commit.remoteBalance }))

/-- Modelled from the spec: the deprecated storage area holds full legacy
commitment snapshots in an opaque pre-existing format whose decoder
(`deserializeChanCommit`) is defined outside the examined file; the area is
modelled as an association list of already-decoded snapshots. -/
abbrev LegacyBucket := List (List Nat × ChannelCommitment)

/-- `fetchOldRevocationLog` from the source (with the opaque legacy decode
modelled as returning the stored snapshot): a missing key is the
log-entry-not-found error. -/
def fetchOldRevocationLog (log : LegacyBucket) (updateNum : Nat) :
    Except DBError ChannelCommitment :=
  match log.lookup (makeLogKey updateNum) with
  | none => .error .logEntryNotFound
  | some c => .ok c

/-- Modelled from the spec: the two nested revocation-log areas of one
channel bucket, each either present or absent (`NestedReadBucket` returning
nil). -/
structure ChanBucket where
  newBucket : Option Bucket
  oldBucket : Option LegacyBucket
  deriving DecidableEq, Repr

/-- The three-way result of `fetchRevocationLogCompatible`: a record decoded
from the current area (non-nil `RevocationLog` in the source) or a legacy
snapshot from the deprecated area (non-nil `ChannelCommitment`). -/
inductive FetchResult where
  | cur (rl : RevocationLog)
  | legacy (c : ChannelCommitment)
  deriving DecidableEq, Repr

/-- The tail of `fetchRevocationLogCompatible` after the current-area
attempt: consult the deprecated bucket, and distinguish the
no-revocation-history case (neither bucket exists) from the
log-entry-not-found case. -/
def fetchFromOld (chanBucket : ChanBucket) (updateNum : Nat) :
    Except DBError FetchResult :=
  match chanBucket.oldBucket with
  | some oldB =>
    match fetchOldRevocationLog oldB updateNum with
    | .error e => .error e
    | .ok c => .ok (.legacy c)
  | none =>
    match chanBucket.newBucket with
    | none => .error .noPastDeltas
    | some _ => .error .logEntryNotFound

/-- `fetchRevocationLogCompatible` from the source: try the current bucket
first; only its log-entry-not-found error falls through to the deprecated
bucket, any other error is surfaced immediately. -/
def fetchRevocationLogCompatible (chanBucket : ChanBucket) (updateNum : Nat) :
    Except DBError FetchResult :=
  match chanBucket.newBucket with
  | some logBucket =>
    match fetchRevocationLog logBucket updateNum with
    | .ok rl => .ok (.cur rl)
    | .error e =>
      if e ≠ .logEntryNotFound then .error e
      else fetchFromOld chanBucket updateNum
  | none => fetchFromOld chanBucket updateNum

/-- `deleteLogBucket` from the source: delete the current-format bucket when
it exists, then the deprecated bucket when it exists (the source checks
existence before each `DeleteNestedBucket` call; the kvdb collaborator is
modelled from the spec, section 6). -/
def deleteLogBucket (chanBucket : ChanBucket) : Except DBError ChanBucket :=
  let cb1 : ChanBucket :=
    match chanBucket.newBucket with
    | some _ => { chanBucket with newBucket := none }
    | none => chanBucket
  let cb2 : ChanBucket :=
    match cb1.oldBucket with
    | some _ => { cb1 with oldBucket := none }
    | none => cb1
  .ok cb2

/-! ## Concrete test vectors used by the witness theorems -/

/-- A non-zero 32-byte payment hash. -/
def sampleHash : List Nat := 1 :: List.replicate 31 2

/-- An HTLC entry with the all-zero hash and zero amount. -/
def sampleEntryZero : HTLCEntry :=
  { rHash := zeroHash, refundTimeout := 0, outputIndex := 0,
    incoming := false, amt := 0 }

/-- An HTLC entry with a non-zero hash and the largest legal output index. -/
def sampleEntry : HTLCEntry :=
  { rHash := sampleHash, refundTimeout := 500000, outputIndex := 65535,
    incoming := true, amt := 300 }

/-- A revocation log exercising both hash shapes, a present zero balance and
an absent balance. -/
def sampleRL : RevocationLog :=
  { ourOutputIndex := 3, theirOutputIndex := 65535,
    commitTxHash := List.replicate 32 7,
    htlcEntries := [sampleEntryZero, sampleEntry],
    ourBalance := some 0, theirBalance := none }

/-- A commitment with one dust HTLC (negative output index) and one normal
HTLC. -/
def sampleCommit : ChannelCommitment :=
  { commitHeight := 10, localBalance := 1000, remoteBalance := 2000,
    commitTxHash := List.replicate 32 9,
    htlcs :=
      [{ rHash := zeroHash, refundTimeout := 5, outputIndex := -1,
         incoming := false, amt := 1500 },
       { rHash := sampleHash, refundTimeout := 6, outputIndex := 2,
         incoming := true, amt := 2500 }] }

theorem beBytes_length (w n : Nat) : (beBytes w n).length = w := by
  induction w generalizing n with
  | zero => rfl
  | succ w ih => simp [beBytes, ih]

theorem beDecode_beBytes_mod (w n : Nat) :
    beDecode (beBytes w n) = n % 256 ^ w := by
  induction w generalizing n with
  | zero => simp [beBytes, beDecode, Nat.mod_one]
  | succ w ih =>
    rw [beBytes, beDecode, beBytes_length, ih, pow_succ, Nat.mod_mul]
    ring

theorem beDecode_beBytes {w n : Nat} (h : n < 256 ^ w) :
    beDecode (beBytes w n) = n := by
  rw [beDecode_beBytes_mod, Nat.mod_eq_of_lt h]

theorem take_append_of_length {α : Type} (l₁ l₂ : List α) {n : Nat}
    (h : l₁.length = n) : (l₁ ++ l₂).take n = l₁ := by
  subst h; exact List.take_left l₁ l₂

theorem drop_append_of_length {α : Type} (l₁ l₂ : List α) {n : Nat}
    (h : l₁.length = n) : (l₁ ++ l₂).drop n = l₂ := by
  subst h; exact List.drop_left l₁ l₂

theorem readVarInt_writeVarInt {n : Nat} (h : n < 2 ^ 64) (rest : List Nat) :
    readVarInt (writeVarInt n ++ rest) = .ok (n, rest) := by
  unfold writeVarInt
  by_cases h1 : n < 0xfd
  · simp [readVarInt, h1]
  · by_cases h2 : n < 0x10000
    · have hlen : (beBytes 2 n).length = 2 := beBytes_length 2 n
      rw [if_neg h1, if_pos h2, List.cons_append, readVarInt]
      rw [if_neg (by norm_num), if_pos
        (by show varIntWidth 0xfd ≤ _; rw [List.length_append, hlen]; norm_num [varIntWidth])]
      have hw : varIntWidth 0xfd = 2 := by norm_num [varIntWidth]
      rw [hw, take_append_of_length _ _ hlen, drop_append_of_length _ _ hlen,
        beDecode_beBytes (show n < 256 ^ 2 by omega)]
    · by_cases h3 : n < 0x100000000
      · have hlen : (beBytes 4 n).length = 4 := beBytes_length 4 n
        rw [if_neg h1, if_neg h2, if_pos h3, List.cons_append, readVarInt]
        rw [if_neg (by norm_num), if_pos
          (by show varIntWidth 0xfe ≤ _; rw [List.length_append, hlen]; norm_num [varIntWidth])]
        have hw : varIntWidth 0xfe = 4 := by norm_num [varIntWidth]
        rw [hw, take_append_of_length _ _ hlen, drop_append_of_length _ _ hlen,
          beDecode_beBytes (show n < 256 ^ 4 by omega)]
      · have hlen : (beBytes 8 n).length = 8 := beBytes_length 8 n
        rw [if_neg h1, if_neg h2, if_neg h3, List.cons_append, readVarInt]
        rw [if_neg (by norm_num), if_pos
          (by show varIntWidth 0xff ≤ _; rw [List.length_append, hlen]; norm_num [varIntWidth])]
        have hw : varIntWidth 0xff = 8 := by norm_num [varIntWidth]
        have h8 : (256 : Nat) ^ 8 = 2 ^ 64 := by norm_num
        rw [hw, take_append_of_length _ _ hlen, drop_append_of_length _ _ hlen,
          beDecode_beBytes (by omega)]

theorem writeVarInt_length_le (n : Nat) : (writeVarInt n).length ≤ 9 := by
  unfold writeVarInt
  split
  · simp
  · split
    · simp [beBytes_length]
    · split <;> simp [beBytes_length]

theorem readVarInt_length_lt {bs rest : List Nat} {n : Nat}
    (h : readVarInt bs = .ok (n, rest)) : rest.length < bs.length := by
  match bs with
  | [] => simp [readVarInt] at h
  | b :: bs =>
    simp only [readVarInt] at h
    split at h
    · simp only [Except.ok.injEq, Prod.mk.injEq] at h
      obtain ⟨-, h2⟩ := h
      subst h2
      simp
    · split at h
      · simp only [Except.ok.injEq, Prod.mk.injEq] at h
        obtain ⟨-, h2⟩ := h
        subst h2
        simp only [List.length_cons, List.length_drop]
        omega
      · simp at h

theorem readTlvStream_length_lt {bs rest : List Nat}
    {fields : List (Nat × List Nat)}
    (h : readTlvStream bs = .ok (fields, rest)) : rest.length < bs.length := by
  unfold readTlvStream at h
  split at h
  · exact absurd h (by simp)
  · exact absurd h (by simp)
  case h_3 bodyLen rest1 hv =>
    split at h
    · split at h
      · simp only [Except.ok.injEq, Prod.mk.injEq] at h
        obtain ⟨-, h2⟩ := h
        subst h2
        have := readVarInt_length_lt hv
        simp only [List.length_drop]
        omega
      · exact absurd h (by simp)
    · exact absurd h (by simp)

/-! ## Round-trip lemmas -/
theorem parseFields_encodeFields (fs : List (Nat × List Nat))
    (hwf : ∀ p ∈ fs, p.1 < 2 ^ 64 ∧ p.2.length < 2 ^ 64) :
    parseFields (encodeFields fs) = .ok fs := by
  induction fs with
  | nil =>
    rw [encodeFields, parseFields.eq_def]
    simp [readVarInt]
  | cons p fs ih =>
    obtain ⟨t, v⟩ := p
    obtain ⟨ht, hv⟩ := hwf (t, v) (List.mem_cons_self _ _)
    have h1 : readVarInt (writeVarInt t ++ (writeVarInt v.length ++ (v ++ encodeFields fs))) =
        .ok (t, writeVarInt v.length ++ (v ++ encodeFields fs)) :=
      readVarInt_writeVarInt ht _
    have h2 : readVarInt (writeVarInt v.length ++ (v ++ encodeFields fs)) =
        .ok (v.length, v ++ encodeFields fs) := readVarInt_writeVarInt hv _
    rw [encodeFields, parseFields.eq_def]
    rw [h1]
    simp only
    rw [h2]
    simp only
    rw [if_pos (by simp)]
    rw [take_append_of_length _ _ rfl, drop_append_of_length _ _ rfl,
      ih (fun q hq => hwf q (List.mem_cons_of_mem _ hq))]

/-- Reading one framed field list from the front of a stream returns the
fields of the frame and the untouched remainder. -/
theorem readTlvStream_frame {body : List Nat} {fs : List (Nat × List Nat)}
    (hlen : body.length < 2 ^ 64) (hparse : parseFields body = .ok fs)
    (rest : List Nat) :
    readTlvStream (writeTlvStream body ++ rest) = .ok (fs, rest) := by
  rw [writeTlvStream, List.append_assoc, readTlvStream,
    readVarInt_writeVarInt hlen]
  simp only
  rw [if_pos (by simp), take_append_of_length _ _ rfl,
    drop_append_of_length _ _ rfl, hparse]

theorem encodeFields_length_le (fs : List (Nat × List Nat)) :
    (encodeFields fs).length ≤
      18 * fs.length + (fs.map (fun p => p.2.length)).sum := by
  induction fs with
  | nil => simp [encodeFields]
  | cons p fs ih =>
    obtain ⟨t, v⟩ := p
    have h1 := writeVarInt_length_le t
    have h2 := writeVarInt_length_le v.length
    simp only [encodeFields, List.length_append, List.map_cons, List.sum_cons,
      List.length_cons]
    omega

theorem decodeFieldD_some {α : Type} {default : α}
    {dec : List Nat → Except DBError α} {fields : List (Nat × List Nat)}
    {tag : Nat} {vb : List Nat} (hl : fields.lookup tag = some vb) :
    decodeFieldD default dec fields tag = dec vb := by
  unfold decodeFieldD
  rw [hl]

theorem decodeFieldD_none {α : Type} {default : α}
    {dec : List Nat → Except DBError α} {fields : List (Nat × List Nat)}
    {tag : Nat} (hl : fields.lookup tag = none) :
    decodeFieldD default dec fields tag = .ok default := by
  unfold decodeFieldD
  rw [hl]

theorem ok_bind {α β : Type} (a : α) (f : α → Except DBError β) :
    (Except.ok a : Except DBError α) >>= f = f a := rfl

theorem sparseHash_roundtrip {x : List Nat} (hlen : x.length = 32) :
    sparseHashDecoder (sparseHashEncoder x) = .ok x := by
  unfold sparseHashEncoder sparseHashDecoder
  by_cases hz : x = zeroHash
  · simp [hz]
  · simp [hz, hlen]

theorem decodeU16_beBytes {n : Nat} (h : n < 2 ^ 16) :
    decodeU16 (beBytes 2 n) = .ok n := by
  unfold decodeU16
  rw [if_pos (beBytes_length 2 n), beDecode_beBytes (show n < 256 ^ 2 by omega)]

theorem decodeU32_beBytes {n : Nat} (h : n < 2 ^ 32) :
    decodeU32 (beBytes 4 n) = .ok n := by
  unfold decodeU32
  rw [if_pos (beBytes_length 4 n), beDecode_beBytes (show n < 256 ^ 4 by omega)]

theorem decodeBool_enc (b : Bool) :
    decodeBool [if b then 1 else 0] = .ok b := by
  cases b <;> simp [decodeBool]

theorem decodeBigSizeField_writeVarInt {n : Nat} (h : n < 2 ^ 64) :
    decodeBigSizeField (writeVarInt n) = .ok n := by
  unfold decodeBigSizeField
  rw [show writeVarInt n = writeVarInt n ++ [] by simp, readVarInt_writeVarInt h]

theorem decodeHTLCFields_htlcFields {h : HTLCEntry} (hwf : h.WF) :
    decodeHTLCFields (htlcFields h) = .ok h := by
  obtain ⟨hlen, htime, hidx, hamt⟩ := hwf
  unfold decodeHTLCFields
  rw [decodeFieldD_some (show List.lookup 0 (htlcFields h) =
        some (sparseHashEncoder h.rHash) from rfl),
    sparseHash_roundtrip hlen, ok_bind,
    decodeFieldD_some (show List.lookup 1 (htlcFields h) =
        some (beBytes 4 h.refundTimeout) from rfl),
    decodeU32_beBytes htime, ok_bind,
    decodeFieldD_some (show List.lookup 2 (htlcFields h) =
        some (beBytes 2 h.outputIndex) from rfl),
    decodeU16_beBytes hidx, ok_bind,
    decodeFieldD_some (show List.lookup 3 (htlcFields h) =
        some [if h.incoming then 1 else 0] from rfl),
    decodeBool_enc, ok_bind,
    decodeFieldD_some (show List.lookup 4 (htlcFields h) =
        some (writeVarInt h.amt) from rfl),
    decodeBigSizeField_writeVarInt hamt, ok_bind]
  rfl

theorem ok_map {α β : Type} (a : α) (f : α → β) :
    (Except.ok a : Except DBError α).map f = .ok (f a) := rfl

theorem map_sum_le {fs : List (Nat × List Nat)}
    (hval : ∀ p ∈ fs, p.2.length ≤ 32) :
    (fs.map (fun p => p.2.length)).sum ≤ 32 * fs.length := by
  induction fs with
  | nil => simp
  | cons p fs ih =>
    simp only [List.map_cons, List.sum_cons, List.length_cons]
    have h1 := hval p (List.mem_cons_self _ _)
    have h2 := ih (fun q hq => hval q (List.mem_cons_of_mem _ hq))
    omega

theorem encodeFields_length_lt {fs : List (Nat × List Nat)}
    (hval : ∀ p ∈ fs, p.2.length ≤ 32) (hcount : fs.length ≤ 5) :
    (encodeFields fs).length < 2 ^ 64 := by
  have h1 := encodeFields_length_le fs
  have h2 := map_sum_le hval
  have h3 : (2 : Nat) ^ 64 = 18446744073709551616 := by norm_num
  omega

theorem sparseHashEncoder_length_le {x : List Nat} (hlen : x.length = 32) :
    (sparseHashEncoder x).length ≤ 32 := by
  unfold sparseHashEncoder
  split
  · simp
  · omega

theorem htlcFields_val_le {h : HTLCEntry} (hwf : h.WF) :
    ∀ p ∈ htlcFields h, p.2.length ≤ 32 := by
  obtain ⟨hlen, -, -, -⟩ := hwf
  have h0 := sparseHashEncoder_length_le hlen
  have h4 := writeVarInt_length_le h.amt
  intro p hp
  simp only [htlcFields, List.mem_cons, List.not_mem_nil, or_false] at hp
  rcases hp with rfl | rfl | rfl | rfl | rfl
  · exact h0
  · show (beBytes 4 h.refundTimeout).length ≤ 32
    rw [beBytes_length]
    omega
  · show (beBytes 2 h.outputIndex).length ≤ 32
    rw [beBytes_length]
    omega
  · show [if h.incoming then 1 else 0].length ≤ 32
    simp
  · show (writeVarInt h.amt).length ≤ 32
    omega

theorem htlcFields_wf {h : HTLCEntry} (hwf : h.WF) :
    ∀ p ∈ htlcFields h, p.1 < 2 ^ 64 ∧ p.2.length < 2 ^ 64 := by
  intro p hp
  have hv := htlcFields_val_le hwf p hp
  refine ⟨?_, by omega⟩
  simp only [htlcFields, List.mem_cons, List.not_mem_nil, or_false] at hp
  rcases hp with rfl | rfl | rfl | rfl | rfl <;> norm_num

theorem htlcBody_length_lt {h : HTLCEntry} (hwf : h.WF) :
    (encodeFields (htlcFields h)).length < 2 ^ 64 :=
  encodeFields_length_lt (htlcFields_val_le hwf) (by simp [htlcFields])

theorem deserializeHTLCEntries_nil : deserializeHTLCEntries [] = .ok [] := by
  rw [deserializeHTLCEntries.eq_def]
  simp [readTlvStream, readVarInt]

theorem deserializeHTLCEntries_serialize {hs : List HTLCEntry}
    (hwf : ∀ h ∈ hs, h.WF) :
    deserializeHTLCEntries (serializeHTLCEntries hs) = .ok hs := by
  induction hs with
  | nil => exact deserializeHTLCEntries_nil
  | cons h hs ih =>
    have hWF := hwf h (List.mem_cons_self _ _)
    have hframe := readTlvStream_frame (htlcBody_length_lt hWF)
      (parseFields_encodeFields _ (htlcFields_wf hWF)) (serializeHTLCEntries hs)
    rw [serializeHTLCEntries, deserializeHTLCEntries.eq_def, hframe]
    simp only
    rw [decodeHTLCFields_htlcFields hWF]
    simp only
    rw [ih (fun x hx => hwf x (List.mem_cons_of_mem _ hx))]

theorem decodeBytes32_of_len {x : List Nat} (h : x.length = 32) :
    decodeBytes32 x = .ok x := by
  unfold decodeBytes32
  rw [if_pos h]

theorem decodeBalance_writeVarInt {b : Nat} (h : b < 2 ^ 64) :
    decodeBalance (writeVarInt b) = .ok (some b) := by
  unfold decodeBalance
  rw [decodeBigSizeField_writeVarInt h]
  rfl

theorem decodeRevLogHeader_revLogFields {rl : RevocationLog} (hwf : rl.WF) :
    decodeRevLogHeader (revLogFields rl) = .ok { rl with htlcEntries := [] } := by
  obtain ⟨hour, htheir, hhash, -, hob, htb⟩ := hwf
  rcases hO : rl.ourBalance with _ | b <;> rcases hT : rl.theirBalance with _ | b'
  · have hfields : revLogFields rl =
        [(0, beBytes 2 rl.ourOutputIndex), (1, beBytes 2 rl.theirOutputIndex),
         (2, rl.commitTxHash)] := by
      unfold revLogFields
      rw [hO, hT]
      rfl
    unfold decodeRevLogHeader
    rw [decodeFieldD_some (show List.lookup 0 (revLogFields rl) =
          some (beBytes 2 rl.ourOutputIndex) by rw [hfields]; rfl),
      decodeU16_beBytes hour, ok_bind,
      decodeFieldD_some (show List.lookup 1 (revLogFields rl) =
          some (beBytes 2 rl.theirOutputIndex) by rw [hfields]; rfl),
      decodeU16_beBytes htheir, ok_bind,
      decodeFieldD_some (show List.lookup 2 (revLogFields rl) =
          some rl.commitTxHash by rw [hfields]; rfl),
      decodeBytes32_of_len hhash, ok_bind,
      decodeFieldD_none (show List.lookup 3 (revLogFields rl) = none by rw [hfields]; rfl),
      ok_bind,
      decodeFieldD_none (show List.lookup 4 (revLogFields rl) = none by rw [hfields]; rfl),
      ok_bind]
    rfl
  · rw [hT] at htb
    rw [Option.getD_some] at htb
    have hfields : revLogFields rl =
        [(0, beBytes 2 rl.ourOutputIndex), (1, beBytes 2 rl.theirOutputIndex),
         (2, rl.commitTxHash), (4, writeVarInt b')] := by
      unfold revLogFields
      rw [hO, hT]
      rfl
    unfold decodeRevLogHeader
    rw [decodeFieldD_some (show List.lookup 0 (revLogFields rl) =
          some (beBytes 2 rl.ourOutputIndex) by rw [hfields]; rfl),
      decodeU16_beBytes hour, ok_bind,
      decodeFieldD_some (show List.lookup 1 (revLogFields rl) =
          some (beBytes 2 rl.theirOutputIndex) by rw [hfields]; rfl),
      decodeU16_beBytes htheir, ok_bind,
      decodeFieldD_some (show List.lookup 2 (revLogFields rl) =
          some rl.commitTxHash by rw [hfields]; rfl),
      decodeBytes32_of_len hhash, ok_bind,
      decodeFieldD_none (show List.lookup 3 (revLogFields rl) = none by rw [hfields]; rfl),
      ok_bind,
      decodeFieldD_some (show List.lookup 4 (revLogFields rl) =
          some (writeVarInt b') by rw [hfields]; rfl),
      decodeBalance_writeVarInt htb, ok_bind]
    rfl
  · rw [hO] at hob
    rw [Option.getD_some] at hob
    have hfields : revLogFields rl =
        [(0, beBytes 2 rl.ourOutputIndex), (1, beBytes 2 rl.theirOutputIndex),
         (2, rl.commitTxHash), (3, writeVarInt b)] := by
      unfold revLogFields
      rw [hO, hT]
      rfl
    unfold decodeRevLogHeader
    rw [decodeFieldD_some (show List.lookup 0 (revLogFields rl) =
          some (beBytes 2 rl.ourOutputIndex) by rw [hfields]; rfl),
      decodeU16_beBytes hour, ok_bind,
      decodeFieldD_some (show List.lookup 1 (revLogFields rl) =
          some (beBytes 2 rl.theirOutputIndex) by rw [hfields]; rfl),
      decodeU16_beBytes htheir, ok_bind,
      decodeFieldD_some (show List.lookup 2 (revLogFields rl) =
          some rl.commitTxHash by rw [hfields]; rfl),
      decodeBytes32_of_len hhash, ok_bind,
      decodeFieldD_some (show List.lookup 3 (revLogFields rl) =
          some (writeVarInt b) by rw [hfields]; rfl),
      decodeBalance_writeVarInt hob, ok_bind,
      decodeFieldD_none (show List.lookup 4 (revLogFields rl) = none by rw [hfields]; rfl),
      ok_bind]
    rfl
  · rw [hO] at hob
    rw [Option.getD_some] at hob
    rw [hT] at htb
    rw [Option.getD_some] at htb
    have hfields : revLogFields rl =
        [(0, beBytes 2 rl.ourOutputIndex), (1, beBytes 2 rl.theirOutputIndex),
         (2, rl.commitTxHash), (3, writeVarInt b), (4, writeVarInt b')] := by
      unfold revLogFields
      rw [hO, hT]
      rfl
    unfold decodeRevLogHeader
    rw [decodeFieldD_some (show List.lookup 0 (revLogFields rl) =
          some (beBytes 2 rl.ourOutputIndex) by rw [hfields]; rfl),
      decodeU16_beBytes hour, ok_bind,
      decodeFieldD_some (show List.lookup 1 (revLogFields rl) =
          some (beBytes 2 rl.theirOutputIndex) by rw [hfields]; rfl),
      decodeU16_beBytes htheir, ok_bind,
      decodeFieldD_some (show List.lookup 2 (revLogFields rl) =
          some rl.commitTxHash by rw [hfields]; rfl),
      decodeBytes32_of_len hhash, ok_bind,
      decodeFieldD_some (show List.lookup 3 (revLogFields rl) =
          some (writeVarInt b) by rw [hfields]; rfl),
      decodeBalance_writeVarInt hob, ok_bind,
      decodeFieldD_some (show List.lookup 4 (revLogFields rl) =
          some (writeVarInt b') by rw [hfields]; rfl),
      decodeBalance_writeVarInt htb, ok_bind]
    rfl

theorem revLogFields_bounds {rl : RevocationLog} (hwf : rl.WF) :
    ∀ p ∈ revLogFields rl, p.1 ≤ 4 ∧ p.2.length ≤ 32 := by
  obtain ⟨-, -, hhash, -, -, -⟩ := hwf
  intro p hp
  unfold revLogFields at hp
  simp only [List.mem_append, List.mem_cons, List.not_mem_nil, or_false] at hp
  rcases hp with ((rfl | rfl | rfl) | hp) | hp
  · exact ⟨by norm_num, by show (beBytes 2 _).length ≤ 32; rw [beBytes_length]; omega⟩
  · exact ⟨by norm_num, by show (beBytes 2 _).length ≤ 32; rw [beBytes_length]; omega⟩
  · exact ⟨by norm_num, by show rl.commitTxHash.length ≤ 32; omega⟩
  · rcases hO : rl.ourBalance with _ | b
    · rw [hO] at hp; simp at hp
    · rw [hO] at hp
      simp at hp
      subst hp
      refine ⟨by norm_num, ?_⟩
      have := writeVarInt_length_le b
      show (writeVarInt b).length ≤ 32
      omega
  · rcases hT : rl.theirBalance with _ | b
    · rw [hT] at hp; simp at hp
    · rw [hT] at hp
      simp at hp
      subst hp
      refine ⟨by norm_num, ?_⟩
      have := writeVarInt_length_le b
      show (writeVarInt b).length ≤ 32
      omega

theorem revLogFields_wf {rl : RevocationLog} (hwf : rl.WF) :
    ∀ p ∈ revLogFields rl, p.1 < 2 ^ 64 ∧ p.2.length < 2 ^ 64 := by
  intro p hp
  have h := revLogFields_bounds hwf p hp
  exact ⟨by omega, by omega⟩

theorem revLogFields_count (rl : RevocationLog) :
    (revLogFields rl).length ≤ 5 := by
  unfold revLogFields
  rcases rl.ourBalance <;> rcases rl.theirBalance <;> simp

theorem revLogBody_length_lt {rl : RevocationLog} (hwf : rl.WF) :
    (encodeFields (revLogFields rl)).length < 2 ^ 64 :=
  encodeFields_length_lt (fun p hp => (revLogFields_bounds hwf p hp).2)
    (revLogFields_count rl)

theorem deserializeRevocationLog_serialize {rl : RevocationLog} (hwf : rl.WF) :
    deserializeRevocationLog (serializeRevocationLog rl) = .ok rl := by
  have hframe := readTlvStream_frame (revLogBody_length_lt hwf)
    (parseFields_encodeFields _ (revLogFields_wf hwf))
    (serializeHTLCEntries rl.htlcEntries)
  unfold serializeRevocationLog deserializeRevocationLog
  rw [hframe]
  simp only
  rw [decodeRevLogHeader_revLogFields hwf]
  simp only
  rw [deserializeHTLCEntries_serialize hwf.2.2.2.1]

/-! ## Helper lemmas for the storage-level claims -/

theorem lookup_bucketPut (b : Bucket) (k v : List Nat) :
    (bucketPut b k v).lookup k = some v := by
  simp [bucketPut, List.lookup]

theorem buildHTLCEntries_ok {hs : List HTLC}
    (hidx : ∀ h ∈ hs, 0 ≤ h.outputIndex → h.outputIndex ≤ 65535) :
    buildHTLCEntries hs =
      .ok ((hs.filter (fun h => decide (0 ≤ h.outputIndex))).map
        NewHTLCEntryFromHTLC) := by
  induction hs with
  | nil => rfl
  | cons h hs ih =>
    have hrest := fun x hx => hidx x (List.mem_cons_of_mem _ hx)
    by_cases hneg : h.outputIndex < 0
    · simp only [buildHTLCEntries, if_pos hneg, ih hrest]
      rw [List.filter_cons_of_neg (by simp; omega)]
    · have h0 : (0 : Int) ≤ h.outputIndex := by omega
      have hle := hidx h (List.mem_cons_self _ _) h0
      simp only [buildHTLCEntries, if_neg hneg,
        if_neg (show ¬h.outputIndex > 65535 by omega), ih hrest]
      rw [List.filter_cons_of_pos (by simp [h0])]
      rfl

theorem buildHTLCEntries_error_of_bad {hs : List HTLC}
    (hbad : ∃ h ∈ hs, 0 ≤ h.outputIndex ∧ 65535 < h.outputIndex) :
    buildHTLCEntries hs = .error .outputIndexTooBig := by
  induction hs with
  | nil => simp at hbad
  | cons h hs ih =>
    obtain ⟨x, hx, hx0, hxbig⟩ := hbad
    rcases List.mem_cons.mp hx with rfl | hxtail
    · simp only [buildHTLCEntries, if_neg (show ¬x.outputIndex < 0 by omega),
        if_pos (show x.outputIndex > 65535 by omega)]
    · have herr := ih ⟨x, hxtail, hx0, hxbig⟩
      by_cases hneg : h.outputIndex < 0
      · simp only [buildHTLCEntries, if_pos hneg]
        exact herr
      · by_cases hbig : h.outputIndex > 65535
        · simp only [buildHTLCEntries, if_neg hneg, if_pos hbig]
        · simp only [buildHTLCEntries, if_neg hneg, if_neg hbig, herr]

theorem buildHTLCEntries_error {hs : List HTLC} {e : DBError}
    (herr : buildHTLCEntries hs = .error e) :
    e = .outputIndexTooBig ∧
      ∃ h ∈ hs, 0 ≤ h.outputIndex ∧ 65535 < h.outputIndex := by
  induction hs with
  | nil => simp [buildHTLCEntries] at herr
  | cons h hs ih =>
    simp only [buildHTLCEntries] at herr
    split at herr
    · obtain ⟨he, x, hx, h1, h2⟩ := ih herr
      exact ⟨he, x, List.mem_cons_of_mem _ hx, h1, h2⟩
    · split at herr
      · simp only [Except.error.injEq] at herr
        refine ⟨herr.symm, h, List.mem_cons_self _ _, by omega, by omega⟩
      · split at herr
        · simp at herr
        · simp only [Except.error.injEq] at herr
          obtain ⟨he, x, hx, h1, h2⟩ := ih (by rw [← herr] at *; assumption)
          exact ⟨he, x, List.mem_cons_of_mem _ hx, h1, h2⟩

theorem NewHTLCEntryFromHTLC_WF {h : HTLC} (hwf : h.WF) :
    (NewHTLCEntryFromHTLC h).WF := by
  obtain ⟨h1, h2, h3⟩ := hwf
  refine ⟨h1, h2, ?_, ?_⟩
  · show ((h.outputIndex % 65536).toNat) < 2 ^ 16
    have ha := Int.emod_nonneg h.outputIndex (show (65536 : Int) ≠ 0 by norm_num)
    have hb := Int.emod_lt_of_pos h.outputIndex (show (0 : Int) < 65536 by norm_num)
    omega
  · show h.amt / 1000 < 2 ^ 64
    have := Nat.div_le_self h.amt 1000
    omega


/-- Claim C1: for every well-formed RevocationLog value (zero, one or many
HTLC entries; each balance absent or present, including present with value
zero; payment hashes all-zero or non-zero), deserializing the bytes produced
by serializing it yields the same RevocationLog, including the exact
presence of each balance and the order and contents of the HTLC entry
list. -/
theorem claim1_revocation_log_roundtrip (rl : RevocationLog) (hwf : rl.WF) :
    deserializeRevocationLog (serializeRevocationLog rl) = .ok rl :=
  deserializeRevocationLog_serialize hwf

theorem claim1_revocation_log_roundtrip_witness :
    RevocationLog.WF sampleRL ∧
      deserializeRevocationLog (serializeRevocationLog sampleRL) =
        .ok sampleRL :=
  ⟨by decide, claim1_revocation_log_roundtrip sampleRL (by decide)⟩

/-- Claim C7: the sparse payment-hash codec encodes the all-zero 32-byte
value as zero bytes (declared length 0) and any other hash verbatim as its
32 bytes; it decodes declared length 0 to the all-zero value and declared
length 32 to those bytes, and any other declared length fails with the
invalid-field-length error. -/
theorem claim7_sparse_hash_codec :
    sparseHashEncoder zeroHash = [] ∧
    (∀ hsh : List Nat, hsh.length = 32 → hsh ≠ zeroHash →
      sparseHashEncoder hsh = hsh) ∧
    (∀ hsh : List Nat, hsh.length = 32 →
      (sparseHashEncoder hsh).length = hashLen hsh) ∧
    (∀ vb : List Nat, vb.length = 0 → sparseHashDecoder vb = .ok zeroHash) ∧
    (∀ vb : List Nat, vb.length = 32 → sparseHashDecoder vb = .ok vb) ∧
    (∀ vb : List Nat, vb.length ≠ 0 → vb.length ≠ 32 →
      sparseHashDecoder vb = .error .invalidFieldLength) := by
  refine ⟨by simp [sparseHashEncoder], ?_, ?_, ?_, ?_, ?_⟩
  · intro hsh hlen hne
    simp [sparseHashEncoder, hne]
  · intro hsh hlen
    unfold sparseHashEncoder hashLen
    by_cases hz : hsh = zeroHash
    · simp [hz]
    · simp [hz, hlen]
  · intro vb hlen
    simp [sparseHashDecoder, hlen]
  · intro vb hlen
    simp [sparseHashDecoder, hlen]
  · intro vb h0 h32
    simp [sparseHashDecoder, h0, h32]

theorem claim7_sparse_hash_codec_witness :
    sparseHashEncoder sampleHash = sampleHash ∧
    (sparseHashEncoder sampleHash).length = hashLen sampleHash ∧
    sparseHashDecoder [] = .ok zeroHash ∧
    sparseHashDecoder sampleHash = .ok sampleHash ∧
    sparseHashDecoder [1, 2, 3] = .error .invalidFieldLength :=
  ⟨claim7_sparse_hash_codec.2.1 sampleHash (by decide) (by decide),
   claim7_sparse_hash_codec.2.2.1 sampleHash (by decide),
   claim7_sparse_hash_codec.2.2.2.1 [] rfl,
   claim7_sparse_hash_codec.2.2.2.2.1 sampleHash (by decide),
   claim7_sparse_hash_codec.2.2.2.2.2 [1, 2, 3] (by decide) (by decide)⟩

/-- Claim C9: deleteLogBucket deletes both the current-format and legacy
buckets when present and succeeds when either or both are absent; deleting
twice in a row succeeds both times, the second call a no-op. -/
theorem claim9_delete_idempotent (cb : ChanBucket) :
    deleteLogBucket cb = .ok { newBucket := none, oldBucket := none } ∧
      (deleteLogBucket cb >>= deleteLogBucket) =
        .ok { newBucket := none, oldBucket := none } := by
  obtain ⟨nb, ob⟩ := cb
  rcases nb <;> rcases ob <;> exact ⟨rfl, rfl⟩

/-- Claim C10: putRevocationLog silently skips dust HTLCs (negative output
index): when no output index exceeds the uint16 range it succeeds, and the
stored record is the serialization of a RevocationLog whose entry list is
exactly the commitment HTLCs with non-negative output index, converted in
their original relative order. -/
theorem claim10_dust_htlcs_skipped :
    (∀ hs : List HTLC,
      (∀ h ∈ hs, 0 ≤ h.outputIndex → h.outputIndex ≤ 65535) →
      buildHTLCEntries hs =
        .ok ((hs.filter fun h => decide (0 ≤ h.outputIndex)).map
          NewHTLCEntryFromHTLC)) ∧
    (∀ (bucket : Bucket) (commit : ChannelCommitment) (our their : Nat)
        (noAmt : Bool), our ≤ 65535 → their ≤ 65535 →
      (∀ h ∈ commit.htlcs, 0 ≤ h.outputIndex → h.outputIndex ≤ 65535) →
      putRevocationLog bucket commit our their noAmt =
        .ok (bucketPut bucket (makeLogKey commit.commitHeight)
          (serializeRevocationLog
            { ourOutputIndex := our, theirOutputIndex := their,
              commitTxHash := commit.commitTxHash,
              htlcEntries := (commit.htlcs.filter
                fun h => decide (0 ≤ h.outputIndex)).map NewHTLCEntryFromHTLC,
              ourBalance := if noAmt then none else some commit.localBalance,
              theirBalance :=
                if noAmt then none else some commit.remoteBalance }))) := by
  refine ⟨fun hs h => buildHTLCEntries_ok h, ?_⟩
  intro bucket commit our their noAmt hour htheir hidx
  unfold putRevocationLog
  rw [if_neg (by omega), if_neg (by omega), buildHTLCEntries_ok hidx]

theorem claim10_dust_htlcs_skipped_witness :
    putRevocationLog [] sampleCommit 1 2 false =
      .ok (bucketPut [] (makeLogKey sampleCommit.commitHeight)
        (serializeRevocationLog
          { ourOutputIndex := 1, theirOutputIndex := 2,
            commitTxHash := sampleCommit.commitTxHash,
            htlcEntries := (sampleCommit.htlcs.filter
              fun h => decide (0 ≤ h.outputIndex)).map NewHTLCEntryFromHTLC,
            ourBalance := some sampleCommit.localBalance,
            theirBalance := some sampleCommit.remoteBalance })) := by
  have h := claim10_dust_htlcs_skipped.2 [] sampleCommit 1 2 false
    (by decide) (by decide) (by decide)
  simpa using h


/-- Claim C2: a framed-record read whose declared length exceeds the bytes
remaining in the stream fails with the truncated-record error
(`unexpectedEof`, the model of `io.ErrUnexpectedEOF`), while an end-of-stream
at the very start of the length field is the benign no-more-records signal
that terminates the HTLC entry list without error: decoding a serialized
entry list consumes every entry and ends successfully at the end of
stream. -/
theorem claim2_truncated_vs_benign_eof :
    (∀ (bs : List Nat) (n : Nat) (rest : List Nat),
      readVarInt bs = .ok (n, rest) → rest.length < n →
      readTlvStream bs = .error .unexpectedEof) ∧
    (∀ hs : List HTLCEntry, (∀ h ∈ hs, h.WF) →
      deserializeHTLCEntries (serializeHTLCEntries hs) = .ok hs) ∧
    deserializeHTLCEntries [] = .ok [] := by
  refine ⟨?_, fun hs h => deserializeHTLCEntries_serialize h,
    deserializeHTLCEntries_nil⟩
  intro bs n rest hv hlt
  unfold readTlvStream
  rw [hv]
  simp only
  rw [if_neg (by omega)]

theorem claim2_truncated_vs_benign_eof_witness :
    readTlvStream [5] = .error .unexpectedEof ∧
      deserializeHTLCEntries (serializeHTLCEntries [sampleEntry]) =
        .ok [sampleEntry] :=
  ⟨claim2_truncated_vs_benign_eof.1 [5] 5 [] rfl (by decide),
   claim2_truncated_vs_benign_eof.2.1 [sampleEntry] (by decide)⟩

/-- Claim C3: if the current-format bucket exists and a record decodes at the
requested height, the compatible fetch returns it tagged as current-format,
whatever the legacy bucket holds; if the current bucket is missing or reports
log-entry-not-found while the legacy bucket holds a record at that height,
the legacy-tagged record is returned; a current-bucket failure other than
log-entry-not-found is surfaced immediately without any legacy fallback. -/
theorem claim3_dual_bucket_fallback :
    (∀ (cb : ChanBucket) (h : Nat) (nb : Bucket) (rl : RevocationLog),
      cb.newBucket = some nb → fetchRevocationLog nb h = .ok rl →
      fetchRevocationLogCompatible cb h = .ok (.cur rl)) ∧
    (∀ (cb : ChanBucket) (h : Nat) (ob : LegacyBucket)
        (c : ChannelCommitment),
      (cb.newBucket = none ∨ ∃ nb, cb.newBucket = some nb ∧
        fetchRevocationLog nb h = .error .logEntryNotFound) →
      cb.oldBucket = some ob → fetchOldRevocationLog ob h = .ok c →
      fetchRevocationLogCompatible cb h = .ok (.legacy c)) ∧
    (∀ (cb : ChanBucket) (h : Nat) (nb : Bucket) (e : DBError),
      cb.newBucket = some nb → fetchRevocationLog nb h = .error e →
      e ≠ .logEntryNotFound →
      fetchRevocationLogCompatible cb h = .error e) := by
  refine ⟨?_, ?_, ?_⟩
  · intro cb h nb rl hnb hfetch
    unfold fetchRevocationLogCompatible
    rw [hnb]
    simp only
    rw [hfetch]
  · intro cb h ob c hnew hob hold
    have hfromOld : fetchFromOld cb h = .ok (.legacy c) := by
      unfold fetchFromOld
      rw [hob]
      simp only
      rw [hold]
    rcases hnew with hnone | ⟨nb, hnb, hnf⟩
    · unfold fetchRevocationLogCompatible
      rw [hnone]
      exact hfromOld
    · unfold fetchRevocationLogCompatible
      rw [hnb]
      simp only
      rw [hnf]
      simp only
      rw [if_neg (by simp)]
      exact hfromOld
  · intro cb h nb e hnb hfetch hne
    unfold fetchRevocationLogCompatible
    rw [hnb]
    simp only
    rw [hfetch]
    simp only
    rw [if_pos hne]

theorem claim3_dual_bucket_fallback_witness :
    fetchRevocationLogCompatible
        { newBucket := some (bucketPut [] (makeLogKey 10)
            (serializeRevocationLog sampleRL)),
          oldBucket := some [(makeLogKey 10, sampleCommit)] } 10 =
      .ok (.cur sampleRL) ∧
    fetchRevocationLogCompatible
        { newBucket := none,
          oldBucket := some [(makeLogKey 10, sampleCommit)] } 10 =
      .ok (.legacy sampleCommit) ∧
    fetchRevocationLogCompatible
        { newBucket := some [(makeLogKey 10, [1])],
          oldBucket := some [(makeLogKey 10, sampleCommit)] } 10 =
      .error .unexpectedEof := by
  refine ⟨claim3_dual_bucket_fallback.1 _ 10 _ sampleRL rfl ?_,
    claim3_dual_bucket_fallback.2.1 _ 10 _ sampleCommit (Or.inl rfl) rfl rfl,
    claim3_dual_bucket_fallback.2.2 _ 10 _ .unexpectedEof rfl rfl (by decide)⟩
  unfold fetchRevocationLog
  rw [lookup_bucketPut]
  exact deserializeRevocationLog_serialize (by decide)

/-- Claim C4: if neither revocation-log bucket exists the compatible fetch
fails with the no-revocation-history error; if the current bucket exists but
the height is absent from both areas it fails with the log-entry-not-found
error; the two errors are distinct values. -/
theorem claim4_not_found_distinction :
    (∀ h : Nat, fetchRevocationLogCompatible
        { newBucket := none, oldBucket := none } h = .error .noPastDeltas) ∧
    (∀ (cb : ChanBucket) (h : Nat) (nb : Bucket),
      cb.newBucket = some nb → nb.lookup (makeLogKey h) = none →
      (∀ ob : LegacyBucket, cb.oldBucket = some ob →
        ob.lookup (makeLogKey h) = none) →
      fetchRevocationLogCompatible cb h = .error .logEntryNotFound) ∧
    DBError.noPastDeltas ≠ DBError.logEntryNotFound := by
  refine ⟨fun h => rfl, ?_, by decide⟩
  intro cb h nb hnb hlook hold
  have hfetch : fetchRevocationLog nb h = .error .logEntryNotFound := by
    unfold fetchRevocationLog
    rw [hlook]
  unfold fetchRevocationLogCompatible
  rw [hnb]
  simp only
  rw [hfetch]
  simp only
  rw [if_neg (by simp)]
  unfold fetchFromOld
  rcases hO : cb.oldBucket with _ | ob
  · simp only
    rw [hnb]
  · have hofetch : fetchOldRevocationLog ob h = .error .logEntryNotFound := by
      unfold fetchOldRevocationLog
      rw [hold ob hO]
    simp only
    rw [hofetch]

theorem claim4_not_found_distinction_witness :
    fetchRevocationLogCompatible { newBucket := none, oldBucket := none } 5 =
      .error .noPastDeltas ∧
    fetchRevocationLogCompatible { newBucket := some [], oldBucket := none } 5 =
      .error .logEntryNotFound ∧
    fetchRevocationLogCompatible
        { newBucket := some [], oldBucket := some [] } 5 =
      .error .logEntryNotFound :=
  ⟨claim4_not_found_distinction.1 5,
   claim4_not_found_distinction.2.1 _ 5 [] rfl rfl
     (fun ob hob => by simp at hob),
   claim4_not_found_distinction.2.1 _ 5 [] rfl rfl
     (fun ob hob => by cases hob; rfl)⟩


theorem bind_eq_ok {α β : Type} {x : Except DBError α}
    {f : α → Except DBError β} {b : β} (h : (x >>= f) = .ok b) :
    ∃ a, x = .ok a ∧ f a = .ok b := by
  cases x with
  | error e => simp [bind, Except.bind] at h
  | ok a => exact ⟨a, rfl, h⟩

theorem lookup_append {α β : Type} [BEq α] (fs gs : List (α × β)) (k : α) :
    (fs ++ gs).lookup k = ((fs.lookup k).or (gs.lookup k)) := by
  induction fs with
  | nil => simp [List.lookup]
  | cons p fs ih =>
    obtain ⟨a, b⟩ := p
    simp only [List.cons_append, List.lookup]
    cases k == a
    · simp [ih]
    · simp

theorem decodeHTLCFields_congr {f g : List (Nat × List Nat)}
    (hl : ∀ t : Nat, t ≤ 4 → f.lookup t = g.lookup t) :
    decodeHTLCFields f = decodeHTLCFields g := by
  unfold decodeHTLCFields decodeFieldD
  rw [hl 0 (by norm_num), hl 1 (by norm_num), hl 2 (by norm_num),
    hl 3 (by norm_num), hl 4 (by norm_num)]

theorem builtRL_WF {commit : ChannelCommitment} (hwf : commit.WF)
    {our their : Nat} (hour : our < 2 ^ 16) (htheir : their < 2 ^ 16)
    (noAmt : Bool) :
    RevocationLog.WF
      { ourOutputIndex := our, theirOutputIndex := their,
        commitTxHash := commit.commitTxHash,
        htlcEntries := (commit.htlcs.filter
          fun h => decide (0 ≤ h.outputIndex)).map NewHTLCEntryFromHTLC,
        ourBalance := if noAmt then none else some commit.localBalance,
        theirBalance := if noAmt then none else some commit.remoteBalance } := by
  obtain ⟨hhash, hlb, hrb, hhtlcs⟩ := hwf
  refine ⟨hour, htheir, hhash, ?_, ?_, ?_⟩
  · intro e he
    simp only [List.mem_map] at he
    obtain ⟨x, hx, rfl⟩ := he
    exact NewHTLCEntryFromHTLC_WF (hhtlcs x (List.mem_of_mem_filter hx))
  · cases noAmt
    · simpa using hlb
    · simp
  · cases noAmt
    · simpa using hrb
    · simp

/-- Claim C5: putRevocationLog fails with the output-index-too-big error
exactly when our output index, their output index, or the output index of a
non-dust HTLC exceeds 65535 (and an error means nothing is written); the
value 65535 itself is accepted, and the stored record fetches back with both
indices still 65535 (never clamped). -/
theorem claim5_output_index_bound :
    (∀ (bucket : Bucket) (commit : ChannelCommitment) (our their : Nat)
        (noAmt : Bool),
      putRevocationLog bucket commit our their noAmt =
          .error .outputIndexTooBig ↔
        65535 < our ∨ 65535 < their ∨
          ∃ h ∈ commit.htlcs, 0 ≤ h.outputIndex ∧ 65535 < h.outputIndex) ∧
    (∀ (bucket : Bucket) (commit : ChannelCommitment) (noAmt : Bool),
      commit.WF → (∀ h ∈ commit.htlcs, h.outputIndex ≤ 65535) →
      ∃ bucket2,
        putRevocationLog bucket commit 65535 65535 noAmt = .ok bucket2 ∧
        ∃ rl, fetchRevocationLog bucket2 commit.commitHeight = .ok rl ∧
          rl.ourOutputIndex = 65535 ∧ rl.theirOutputIndex = 65535) := by
  constructor
  · intro bucket commit our their noAmt
    constructor
    · intro herr
      unfold putRevocationLog at herr
      split at herr
      · left
        omega
      · split at herr
        · right
          left
          omega
        · split at herr
          case _ e heq =>
            simp only [Except.error.injEq] at herr
            subst herr
            right
            right
            exact (buildHTLCEntries_error heq).2
          case _ entries heq => simp at herr
    · intro hcond
      unfold putRevocationLog
      by_cases h1 : our > 65535
      · rw [if_pos h1]
      · rw [if_neg h1]
        by_cases h2 : their > 65535
        · rw [if_pos h2]
        · rw [if_neg h2]
          have hbad : ∃ h ∈ commit.htlcs,
              0 ≤ h.outputIndex ∧ 65535 < h.outputIndex := by
            rcases hcond with h | h | h
            · omega
            · omega
            · exact h
          rw [buildHTLCEntries_error_of_bad hbad]
  · intro bucket commit noAmt hwf hidx
    refine ⟨bucketPut bucket (makeLogKey commit.commitHeight)
        (serializeRevocationLog
          { ourOutputIndex := 65535, theirOutputIndex := 65535,
            commitTxHash := commit.commitTxHash,
            htlcEntries := ((commit.htlcs.filter
              (fun h => decide (0 ≤ h.outputIndex))).map NewHTLCEntryFromHTLC),
            ourBalance := if noAmt then none else some commit.localBalance,
            theirBalance :=
              if noAmt then none else some commit.remoteBalance }), ?_, ?_⟩
    · unfold putRevocationLog
      rw [if_neg (by omega), if_neg (by omega),
        buildHTLCEntries_ok (fun h hm _ => hidx h hm)]
    · refine
        ⟨{ ourOutputIndex := 65535, theirOutputIndex := 65535,
           commitTxHash := commit.commitTxHash,
           htlcEntries := ((commit.htlcs.filter
             (fun h => decide (0 ≤ h.outputIndex))).map NewHTLCEntryFromHTLC),
           ourBalance := if noAmt then none else some commit.localBalance,
           theirBalance :=
             if noAmt then none else some commit.remoteBalance },
         ?_, rfl, rfl⟩
      unfold fetchRevocationLog
      rw [lookup_bucketPut]
      exact deserializeRevocationLog_serialize
        (builtRL_WF hwf (by norm_num) (by norm_num) noAmt)

theorem claim5_output_index_bound_witness :
    putRevocationLog [] sampleCommit 65536 0 false =
      .error .outputIndexTooBig ∧
    (∃ bucket2,
      putRevocationLog [] sampleCommit 65535 65535 false = .ok bucket2 ∧
      ∃ rl, fetchRevocationLog bucket2 sampleCommit.commitHeight = .ok rl ∧
        rl.ourOutputIndex = 65535 ∧ rl.theirOutputIndex = 65535) :=
  ⟨(claim5_output_index_bound.1 [] sampleCommit 65536 0 false).mpr
      (Or.inl (by norm_num)),
   claim5_output_index_bound.2 [] sampleCommit false (by decide) (by decide)⟩

/-- Claim C6: serializing a RevocationLog with a nil balance and decoding
yields that balance absent; serializing with a balance present and equal to
zero yields it present with value zero (both are instances of the balances
round-tripping exactly); and on decode, presence of each balance is
determined solely by whether its type tag was observed among the parsed
fields. -/
theorem claim6_balance_optionality :
    (∀ rl : RevocationLog, rl.WF →
      ∃ rl2, deserializeRevocationLog (serializeRevocationLog rl) = .ok rl2 ∧
        rl2.ourBalance = rl.ourBalance ∧ rl2.theirBalance = rl.theirBalance) ∧
    (∀ (fields : List (Nat × List Nat)) (rl : RevocationLog),
      decodeRevLogHeader fields = .ok rl →
      (rl.ourBalance.isSome ↔ (fields.lookup 3).isSome) ∧
      (rl.theirBalance.isSome ↔ (fields.lookup 4).isSome)) := by
  constructor
  · intro rl hwf
    exact ⟨rl, deserializeRevocationLog_serialize hwf, rfl, rfl⟩
  · intro fields rl h
    unfold decodeRevLogHeader at h
    obtain ⟨our, h0, h⟩ := bind_eq_ok h
    obtain ⟨their, h1, h⟩ := bind_eq_ok h
    obtain ⟨hsh, h2, h⟩ := bind_eq_ok h
    obtain ⟨obal, h3, h⟩ := bind_eq_ok h
    obtain ⟨tbal, h4, h⟩ := bind_eq_ok h
    simp only [pure, Except.pure, Except.ok.injEq] at h
    subst h
    constructor
    · cases hl : fields.lookup 3 with
      | none =>
        rw [decodeFieldD_none hl] at h3
        simp only [Except.ok.injEq] at h3
        subst h3
        simp
      | some vb =>
        rw [decodeFieldD_some hl] at h3
        unfold decodeBalance at h3
        cases hbs : decodeBigSizeField vb with
        | error e =>
          rw [hbs] at h3
          simp [Except.map] at h3
        | ok n =>
          rw [hbs] at h3
          simp only [Except.map, Except.ok.injEq] at h3
          subst h3
          simp
    · cases hl : fields.lookup 4 with
      | none =>
        rw [decodeFieldD_none hl] at h4
        simp only [Except.ok.injEq] at h4
        subst h4
        simp
      | some vb =>
        rw [decodeFieldD_some hl] at h4
        unfold decodeBalance at h4
        cases hbs : decodeBigSizeField vb with
        | error e =>
          rw [hbs] at h4
          simp [Except.map] at h4
        | ok n =>
          rw [hbs] at h4
          simp only [Except.map, Except.ok.injEq] at h4
          subst h4
          simp

theorem claim6_balance_optionality_witness :
    (∃ rl2, deserializeRevocationLog (serializeRevocationLog sampleRL) =
        .ok rl2 ∧
      rl2.ourBalance = sampleRL.ourBalance ∧
      rl2.theirBalance = sampleRL.theirBalance) ∧
    ((({ sampleRL with htlcEntries := [] } : RevocationLog).ourBalance.isSome ↔
        ((revLogFields sampleRL).lookup 3).isSome) ∧
      (({ sampleRL with htlcEntries := [] } : RevocationLog).theirBalance.isSome ↔
        ((revLogFields sampleRL).lookup 4).isSome)) :=
  ⟨claim6_balance_optionality.1 sampleRL (by decide),
   claim6_balance_optionality.2 (revLogFields sampleRL)
     { sampleRL with htlcEntries := [] }
     (decodeRevLogHeader_revLogFields (by decide))⟩

/-- Claim C8: the HTLC-entry encoder emits the known tags (hash 0, timeout 1,
output index 2, incoming 3, amount 4) in ascending numeric order, and the
revocation-log header fields are likewise emitted with strictly ascending
tags, so encoding is deterministic; the decoder's projection depends only on
the per-tag lookups (fields accepted in any order), and a record carrying an
extra unknown tag is decoded by skipping that field by its declared length
rather than failing. -/
theorem claim8_tag_order_unknown_skip :
    (∀ h : HTLCEntry, (htlcFields h).map Prod.fst = [0, 1, 2, 3, 4]) ∧
    (∀ rl : RevocationLog,
      List.Chain' (fun a b => a < b) ((revLogFields rl).map Prod.fst)) ∧
    (∀ f g : List (Nat × List Nat),
      (∀ t : Nat, t ≤ 4 → f.lookup t = g.lookup t) →
      decodeHTLCFields f = decodeHTLCFields g) ∧
    (∀ (h : HTLCEntry) (t : Nat) (vb : List Nat), h.WF →
      4 < t → t < 2 ^ 64 → vb.length ≤ 65536 →
      deserializeHTLCEntries
          (writeTlvStream (encodeFields (htlcFields h ++ [(t, vb)]))) =
        .ok [h]) := by
  refine ⟨fun h => rfl, ?_, fun f g hl => decodeHTLCFields_congr hl, ?_⟩
  · intro rl
    unfold revLogFields
    rcases rl.ourBalance <;> rcases rl.theirBalance <;> simp <;> decide
  · intro h t vb hwf ht4 ht64 hvb
    have hfieldswf : ∀ p ∈ htlcFields h ++ [(t, vb)],
        p.1 < 2 ^ 64 ∧ p.2.length < 2 ^ 64 := by
      intro p hp
      rcases List.mem_append.mp hp with hp | hp
      · exact htlcFields_wf hwf p hp
      · simp only [List.mem_singleton] at hp
        subst hp
        refine ⟨ht64, ?_⟩
        show vb.length < 2 ^ 64
        omega
    have hparse := parseFields_encodeFields _ hfieldswf
    have hlen : (encodeFields (htlcFields h ++ [(t, vb)])).length < 2 ^ 64 := by
      have h1 := encodeFields_length_le (htlcFields h ++ [(t, vb)])
      have h2 : ((htlcFields h ++ [(t, vb)]).map fun p => p.2.length).sum
          ≤ 160 + vb.length := by
        rw [List.map_append, List.sum_append]
        have h3 := map_sum_le (htlcFields_val_le hwf)
        have h4 : (htlcFields h).length = 5 := by simp [htlcFields]
        rw [h4] at h3
        have h6 : (([(t, vb)] : List (Nat × List Nat)).map
            fun p => p.2.length).sum = vb.length := by simp
        rw [h6]
        omega
      have h5 : (htlcFields h ++ [(t, vb)]).length = 6 := by
        simp [htlcFields]
      rw [h5] at h1
      omega
    have hframe := readTlvStream_frame hlen hparse []
    have hdec : decodeHTLCFields (htlcFields h ++ [(t, vb)]) = .ok h := by
      rw [decodeHTLCFields_congr (g := htlcFields h) ?_,
        decodeHTLCFields_htlcFields hwf]
      intro t2 ht2
      rw [lookup_append]
      have hne : (t2 == t) = false := by
        simp only [beq_eq_false_iff_ne, ne_eq]
        omega
      simp [List.lookup, hne]
    rw [show writeTlvStream (encodeFields (htlcFields h ++ [(t, vb)])) =
        writeTlvStream (encodeFields (htlcFields h ++ [(t, vb)])) ++ []
      by simp]
    rw [deserializeHTLCEntries.eq_def, hframe]
    simp only
    rw [hdec]
    simp only
    rw [deserializeHTLCEntries_nil]

theorem claim8_tag_order_unknown_skip_witness :
    decodeHTLCFields ((htlcFields sampleEntry).reverse) =
        decodeHTLCFields (htlcFields sampleEntry) ∧
      deserializeHTLCEntries
          (writeTlvStream
            (encodeFields (htlcFields sampleEntry ++ [(9, [1, 2])]))) =
        .ok [sampleEntry] :=
  ⟨claim8_tag_order_unknown_skip.2.2.1 _ _
      (by intro t ht; interval_cases t <;> rfl),
   claim8_tag_order_unknown_skip.2.2.2 sampleEntry 9 [1, 2] (by decide)
     (by decide) (by decide) (by decide)⟩

end RevLog

